import Mathlib

set_option maxRecDepth 8000

namespace TriChatLedger

/-! Verification of the hash-chained memory ledger of the tri-chat-arena
repository: the JSON handling and body sanitizer of the save-to-ledger
edge function, the canonical hash engine, the per-agent chain linker, the
batcher, and the row-level security configuration of the ledger tables.
JSON values are embedded as a mutual inductive family so that every
function on them is structurally recursive and evaluable. -/

mutual

/-- JSON values as handled by the ledger edge functions and the SQL layer.
Strings are lists of UTF-16 code units so that control characters and lone
surrogates can be represented exactly as JavaScript represents them; object
fields keep their insertion order, as JavaScript objects do. -/
inductive Json where
  | jnull : Json
  | jbool : Bool → Json
  | jnum : Int → Json
  | jstr : List Nat → Json
  | jarr : JsonItems → Json
  | jobj : JsonFields → Json
deriving Repr

/-- Items of a JSON array. -/
inductive JsonItems where
  | nil : JsonItems
  | cons : Json → JsonItems → JsonItems
deriving Repr

/-- Fields of a JSON object, in insertion order. -/
inductive JsonFields where
  | nil : JsonFields
  | cons : List Nat → Json → JsonFields → JsonFields
deriving Repr

end

deriving instance DecidableEq for Json

/-- Array items from a Lean list, for writing concrete values. -/
def JsonItems.ofList : List Json → JsonItems
  | [] => .nil
  | x :: xs => .cons x (JsonItems.ofList xs)

/-- Object fields from a Lean list, for writing concrete values. -/
def JsonFields.ofList : List (List Nat × Json) → JsonFields
  | [] => .nil
  | (k, v) :: kvs => .cons k v (JsonFields.ofList kvs)

/-- Code units of an ASCII string literal, for writing concrete inputs. -/
def ascii (s : String) : List Nat := s.data.map Char.toNat

/-- Lowercase hexadecimal digit as a code unit. -/
def hexDigit (n : Nat) : Nat := if n < 10 then 48 + n else 87 + n

/-- A six-character JSON escape of one UTF-16 code unit: backslash, the
letter u, and four lowercase hex digits. -/
def uEscape (c : Nat) : List Nat :=
  [92, 117, hexDigit (c / 4096 % 16), hexDigit (c / 256 % 16),
   hexDigit (c / 16 % 16), hexDigit (c % 16)]

/-- Escape one code unit inside a JSON string literal the way JSON.stringify
does: the quote and the backslash are backslash-escaped, the control
characters below U+0020 use a short escape or a \u00xx escape, and every
other unit is emitted literally (in particular U+007F-U+009F pass through
unescaped). -/
def escapeUnit (c : Nat) : List Nat :=
  if c = 34 then [92, 34]
  else if c = 92 then [92, 92]
  else if c = 8 then [92, 98]
  else if c = 9 then [92, 116]
  else if c = 10 then [92, 110]
  else if c = 12 then [92, 102]
  else if c = 13 then [92, 114]
  else if c < 32 then uEscape c
  else [c]

def isHighSurrogate (c : Nat) : Bool := 55296 ≤ c && c ≤ 56319

def isLowSurrogate (c : Nat) : Bool := 56320 ≤ c && c ≤ 57343

/-- Serialize the interior of a JSON string literal the way a well-formed
JSON.stringify does: a paired surrogate passes through, a lone surrogate is
written as a \uxxxx escape, every other unit goes through escapeUnit. -/
def escapeStr : List Nat → List Nat
  | [] => []
  | [c] =>
      if isHighSurrogate c || isLowSurrogate c then uEscape c else escapeUnit c
  | c1 :: c2 :: rest =>
      if isHighSurrogate c1 && isLowSurrogate c2 then
        c1 :: c2 :: escapeStr rest
      else if isHighSurrogate c1 || isLowSurrogate c1 then
        uEscape c1 ++ escapeStr (c2 :: rest)
      else
        escapeUnit c1 ++ escapeStr (c2 :: rest)

/-- Serialized form of a JSON string literal including its quotes. -/
def quoteStr (s : List Nat) : List Nat := 34 :: (escapeStr s ++ [34])

mutual

/-- JSON.stringify of one value, with no indentation, producing the UTF-16
code units of the serialized text. Object keys are emitted in insertion
order; no key sorting takes place. -/
def stringify : Json → List Nat
  | .jnull => [110, 117, 108, 108]
  | .jbool true => [116, 114, 117, 101]
  | .jbool false => [102, 97, 108, 115, 101]
  | .jnum i => ascii (toString i)
  | .jstr s => quoteStr s
  | .jarr xs => 91 :: (stringifyItems xs ++ [93])
  | .jobj kvs => 123 :: (stringifyFields kvs ++ [125])

/-- Comma-separated serialization of array items. -/
def stringifyItems : JsonItems → List Nat
  | .nil => []
  | .cons x .nil => stringify x
  | .cons x (.cons y tl) => stringify x ++ (44 :: stringifyItems (.cons y tl))

/-- Comma-separated serialization of object fields. -/
def stringifyFields : JsonFields → List Nat
  | .nil => []
  | .cons k v .nil => quoteStr k ++ (58 :: stringify v)
  | .cons k v (.cons k2 v2 tl) =>
      quoteStr k ++ (58 :: stringify v) ++ (44 :: stringifyFields (.cons k2 v2 tl))

end

/-- JSON whitespace. -/
def isWs (c : Nat) : Bool := c = 32 || c = 9 || c = 10 || c = 13

def skipWs : List Nat → List Nat
  | [] => []
  | c :: rest => if isWs c then skipWs rest else c :: rest

/-- Value of one hexadecimal digit code unit, if it is one. -/
def hexVal (c : Nat) : Option Nat :=
  if 48 ≤ c && c ≤ 57 then some (c - 48)
  else if 97 ≤ c && c ≤ 102 then some (c - 87)
  else if 65 ≤ c && c ≤ 70 then some (c - 55)
  else none

/-- Short escape characters accepted by JSON.parse after a backslash. -/
def shortEscape (e : Nat) : Option Nat :=
  if e = 34 then some 34
  else if e = 92 then some 92
  else if e = 47 then some 47
  else if e = 98 then some 8
  else if e = 102 then some 12
  else if e = 110 then some 10
  else if e = 114 then some 13
  else if e = 116 then some 9
  else none

/-- Parse the interior of a JSON string literal after the opening quote,
as JSON.parse does: escapes are decoded (\uxxxx escapes may denote lone
surrogates), a raw control character below U+0020 makes the parse fail.
Returns the decoded units and the input after the closing quote. -/
def parseStrBody : Nat → List Nat → Option (List Nat × List Nat)
  | 0, _ => none
  | _, [] => none
  | fuel + 1, c :: rest =>
    if c = 34 then some ([], rest)
    else if c = 92 then
      match rest with
      | [] => none
      | e :: rest2 =>
        if e = 117 then
          match rest2 with
          | h1 :: h2 :: h3 :: h4 :: rest3 =>
            match hexVal h1, hexVal h2, hexVal h3, hexVal h4 with
            | some a, some b, some c2, some d =>
              (parseStrBody fuel rest3).map
                (fun p => ((a * 4096 + b * 256 + c2 * 16 + d) :: p.1, p.2))
            | _, _, _, _ => none
          | _ => none
        else
          match shortEscape e with
          | some u => (parseStrBody fuel rest2).map (fun p => (u :: p.1, p.2))
          | none => none
    else if c < 32 then none
    else (parseStrBody fuel rest).map (fun p => (c :: p.1, p.2))

/-- Parse a JSON integer literal (the bodies handled by the ledger carry
no fractional numbers; a fractional or exponent literal is out of this
model's scope and fails the parse). -/
def parseNum (l : List Nat) : Option (Json × List Nat) :=
  let (neg, l1) := match l with
    | 45 :: r => (true, r)
    | _ => (false, l)
  let ds := l1.takeWhile (fun c => 48 ≤ c && c ≤ 57)
  if ds.isEmpty then none
  else
    let n : Nat := ds.foldl (fun a c => a * 10 + (c - 48)) 0
    some (.jnum (if neg then -(n : Int) else (n : Int)), l1.drop ds.length)

mutual

/-- Parse one JSON value, as JSON.parse does, with a fuel bound. -/
def parseVal : Nat → List Nat → Option (Json × List Nat)
  | 0, _ => none
  | fuel + 1, l =>
    match skipWs l with
    | [] => none
    | c :: rest =>
      if c = 34 then
        (parseStrBody (rest.length + 1) rest).map (fun p => (.jstr p.1, p.2))
      else if c = 110 then
        match rest with
        | 117 :: 108 :: 108 :: r => some (.jnull, r)
        | _ => none
      else if c = 116 then
        match rest with
        | 114 :: 117 :: 101 :: r => some (.jbool true, r)
        | _ => none
      else if c = 102 then
        match rest with
        | 97 :: 108 :: 115 :: 101 :: r => some (.jbool false, r)
        | _ => none
      else if c = 91 then
        match skipWs rest with
        | 93 :: r => some (.jarr .nil, r)
        | l2 => (parseArrItems fuel l2).map (fun p => (.jarr p.1, p.2))
      else if c = 123 then
        match skipWs rest with
        | 125 :: r => some (.jobj .nil, r)
        | l2 => (parseObjItems fuel l2).map (fun p => (.jobj p.1, p.2))
      else
        parseNum (c :: rest)

/-- Parse the comma-separated items of a non-empty JSON array, up to and
including the closing bracket. -/
def parseArrItems : Nat → List Nat → Option (JsonItems × List Nat)
  | 0, _ => none
  | fuel + 1, l =>
    match parseVal fuel l with
    | none => none
    | some (v, r) =>
      match skipWs r with
      | 44 :: r2 => (parseArrItems fuel r2).map (fun p => (.cons v p.1, p.2))
      | 93 :: r2 => some (.cons v .nil, r2)
      | _ => none

/-- Parse the key-value pairs of a non-empty JSON object, up to and
including the closing brace. -/
def parseObjItems : Nat → List Nat → Option (JsonFields × List Nat)
  | 0, _ => none
  | fuel + 1, l =>
    match skipWs l with
    | 34 :: r =>
      match parseStrBody (r.length + 1) r with
      | none => none
      | some (k, r2) =>
        match skipWs r2 with
        | 58 :: r3 =>
          match parseVal fuel r3 with
          | none => none
          | some (v, r4) =>
            match skipWs r4 with
            | 44 :: r5 => (parseObjItems fuel r5).map (fun p => (.cons k v p.1, p.2))
            | 125 :: r5 => some (.cons k v .nil, r5)
            | _ => none
        | _ => none
    | _ => none

end

/-- JSON.parse of a whole text: one value with only whitespace around it. -/
def parseJson (l : List Nat) : Option Json :=
  match parseVal (l.length + 8) l with
  | some (v, r) => if skipWs r = [] then some v else none
  | none => none

/-- The pattern the sanitizer's first replace looks for: the six characters
of the escape text backslash-u-d-c-c-d. -/
def udccdPat : List Nat := [92, 117, 100, 99, 99, 100]

/-- The replacement string literal of the sanitizer's first replace, code
units of the four characters U+F8FF, U+00FC, U+00EC, U+00E7 as they appear
in the source. -/
def udccdRepl : List Nat := [63743, 252, 236, 231]

/-- Fueled scanner for the global replacement of the escape text
backslash-udccd; every step consumes at least one character, so fuel equal
to the input length is always sufficient. -/
def replaceUdccdF : Nat → List Nat → List Nat
  | 0, l => l
  | _, [] => []
  | f + 1, c :: rest =>
    if (c :: rest).take 6 = udccdPat then
      udccdRepl ++ replaceUdccdF f (rest.drop 5)
    else
      c :: replaceUdccdF f rest

/-- Global replacement of the escape text backslash-udccd, scanning left to
right without overlap, as the JavaScript global regex replace does. -/
def replaceUdccd (l : List Nat) : List Nat := replaceUdccdF l.length l

/-- Membership in the character class of the sanitizer's second replace:
U+0000-U+001F and U+007F-U+009F. -/
def isStripped (c : Nat) : Bool := c ≤ 31 || (127 ≤ c && c ≤ 159)

/-- The sanitizer's second replace removes every occurrence of the control
character class from the text it is given. -/
def stripCtrl (l : List Nat) : List Nat := l.filter (fun c => !isStripped c)

/-- The body sanitizer of the submission gateway: serialize the body with
JSON.stringify, replace the backslash-udccd escape text, delete the control
character class from the serialized text, and parse the result back.
The parse returns none where JSON.parse would throw. -/
def sanitizeBodyJson (b : Json) : Option Json :=
  parseJson (stripCtrl (replaceUdccd (stringify b)))

/-- One step of the digest model: a 64-bit rolling combination. -/
def hashStep (h c : Nat) : Nat := (h * 131 + c) % (2 ^ 64)

/-- Modelled from the spec: the body of the SQL function
compute_canonical_hash is not in the repository; only its declared
signature, taking one json argument and returning text, appears in the
generated database types. Section 4.1 of the specification records the
reference behavior this models: the hash is computed over the literal JSON
serialization of the input, without sorting object keys. The digest itself
is modelled as a 64-bit rolling hash of the serialized code units, since
only equality and inequality of digests matter to the claims. -/
def compute_canonical_hash (data : Json) : Nat :=
  (stringify data).foldl hashStep 5381

/-- Lexicographic order on code unit lists, used to canonicalize keys. -/
def unitsLe : List Nat → List Nat → Bool
  | [], _ => true
  | _ :: _, [] => false
  | a :: as, b :: bs => if a < b then true else if b < a then false else unitsLe as bs

/-- Insertion into key-sorted object fields. -/
def insertField (k : List Nat) (v : Json) : JsonFields → JsonFields
  | .nil => .cons k v .nil
  | .cons k2 v2 rest =>
      if unitsLe k k2 then .cons k v (.cons k2 v2 rest)
      else .cons k2 v2 (insertField k v rest)

/-- Insertion sort of object fields by key. -/
def sortFields : JsonFields → JsonFields
  | .nil => .nil
  | .cons k v rest => insertField k v (sortFields rest)

mutual

/-- The canonicalization the specification asks an implementer to add:
recursively sort the keys of every object. Two JSON values are structurally
equal regardless of key insertion order exactly when their key-sorted forms
are equal; this definition follows the words of the specification and is
used only to compare behaviors. -/
def sortKeys : Json → Json
  | .jarr xs => .jarr (sortKeysItems xs)
  | .jobj kvs => .jobj (sortFields (sortKeysFields kvs))
  | j => j

/-- Key canonicalization inside array items. -/
def sortKeysItems : JsonItems → JsonItems
  | .nil => .nil
  | .cons x tl => .cons (sortKeys x) (sortKeysItems tl)

/-- Key canonicalization inside object field values. -/
def sortKeysFields : JsonFields → JsonFields
  | .nil => .nil
  | .cons k v tl => .cons k (sortKeys v) (sortKeysFields tl)

end

/-- Two bodies that are structurally equal and differ only in the insertion
order of their object keys. -/
def keyOrderLeft : Json :=
  .jobj (.ofList [(ascii "a", .jnum 1), (ascii "b", .jnum 2)])

def keyOrderRight : Json :=
  .jobj (.ofList [(ascii "b", .jnum 2), (ascii "a", .jnum 1)])

/-- C3: the hash engine is not key-order invariant. The two bodies above
canonicalize to the same value, so they are structurally equal up to key
insertion order, yet compute_canonical_hash gives them different digests,
because it hashes the literal serialization without sorting keys. -/
theorem C3_hash_depends_on_key_order :
    sortKeys keyOrderLeft = sortKeys keyOrderRight ∧
    compute_canonical_hash keyOrderLeft ≠ compute_canonical_hash keyOrderRight := by
  exact ⟨by decide, by decide⟩

mutual

/-- The transformation the claim attributes to the sanitizer: every control
character U+0000-U+001F and U+007F-U+009F is removed from the strings and
keys of the body. This definition follows the words of the claim and is
used only to compare it with the gateway's sanitizeBodyJson. -/
def specSanitize : Json → Json
  | .jstr s => .jstr (stripCtrl s)
  | .jarr xs => .jarr (specSanitizeItems xs)
  | .jobj kvs => .jobj (specSanitizeFields kvs)
  | j => j

/-- Claimed sanitization inside array items. -/
def specSanitizeItems : JsonItems → JsonItems
  | .nil => .nil
  | .cons x tl => .cons (specSanitize x) (specSanitizeItems tl)

/-- Claimed sanitization inside object fields. -/
def specSanitizeFields : JsonFields → JsonFields
  | .nil => .nil
  | .cons k v tl => .cons (stripCtrl k) (specSanitize v) (specSanitizeFields tl)

end

/-- A new-format body whose content field carries the given code units and
whose actor field is the letter u. -/
def mkBody (s : List Nat) : Json :=
  .jobj (.ofList [(ascii "content", .jstr s), (ascii "actor", .jstr [117])])

/-- A new-format body whose content field carries the control character
U+0001 between the letters a and b. -/
def ctrlBody : Json := mkBody [97, 1, 98]

/-- C10 counterexample: on a body whose content holds the control character
U+0001, the gateway sanitizer returns the body unchanged, not the body with
the control characters removed that the claim describes: JSON.stringify has
already escaped every unit below U+0020 when the character-class replace
runs, so those units survive the round trip. The body contains no
backslash-udccd escape text, so that clause of the claim is inert here. -/
theorem C10_sanitizer_keeps_low_controls :
    sanitizeBodyJson ctrlBody ≠ some (specSanitize ctrlBody) ∧
    sanitizeBodyJson ctrlBody = some ctrlBody := by
  exact ⟨by decide, by decide⟩

/-- C10 amended: the sanitizer removes only class characters that appear
literally in the JSON serialization. For a content string with one unit
between the letters a and b, every control character below U+0020 survives
sanitization unchanged, because JSON.stringify escapes it before the
character-class replace runs, while every literal unit in U+007F-U+009F is
removed. -/
theorem C10_sanitizer_strips_only_high_controls :
    (∀ c, c < 32 → sanitizeBodyJson (mkBody [97, c, 98]) = some (mkBody [97, c, 98])) ∧
    (∀ c, 127 ≤ c → c ≤ 159 → sanitizeBodyJson (mkBody [97, c, 98]) = some (mkBody [97, 98])) := by
  constructor
  · decide
  · intro c h1 h2
    have h3 : ∀ c, c < 160 → 127 ≤ c →
        sanitizeBodyJson (mkBody [97, c, 98]) = some (mkBody [97, 98]) := by decide
    exact h3 c (by omega) h1

/-- A row of the ledger_entries table, with the fields the claims are
about. The arweave_tx and l2_tx columns carry opaque external references
and play no part in any claim, so they are omitted. -/
structure Entry where
  id : Nat
  agent_id : List Nat
  user_id : List Nat
  entry_type : List Nat
  body_json : Json
  body_hash : Nat
  prev_hash : Option Nat
  batch_id : Option Nat
  created_at : Nat
  shared : Bool
deriving Repr, DecidableEq

/-- A row of the ledger_batches table. -/
structure Batch where
  id : Nat
  user_id : List Nat
  root_hash : Nat
  entry_count : Nat
  from_id : Option Nat
  to_id : Option Nat
deriving Repr, DecidableEq

/-- The ledger datastore: entries and batches in insertion order. Row
identifiers and creation timestamps are modelled by the insertion index,
which preserves exactly the ordering the datastore guarantees. -/
structure LedgerState where
  entries : List Entry
  batches : List Batch
deriving Repr, DecidableEq

def emptyState : LedgerState := ⟨[], []⟩

/-- Modelled from the spec: the body of the SQL function get_prev_hash is
not in the repository; its declared signature in the generated database
types takes only the agent identifier p_agent_id, with no user parameter.
It returns the body_hash of the most recently created ledger entry whose
agent_id matches, or null when the agent has no entries; in the state
list, the most recently created matching entry is the last one. -/
def get_prev_hash (entries : List Entry) (agentId : List Nat) : Option Nat :=
  ((entries.filter (fun e => e.agent_id == agentId)).getLast?).map (fun e => e.body_hash)

/-- A store-level append request: the data the insert carries after the
gateway has validated it. -/
structure AppendReq where
  agent_id : List Nat
  user_id : List Nat
  entry_type : List Nat
  body_json : Json
deriving Repr, DecidableEq

/-- Modelled from the spec: the insert trigger on ledger_entries is not in
the repository (the gateway's comment records that the trigger computes
body_hash and prev_hash automatically). The new row receives a server
assigned id and created_at, body_hash from compute_canonical_hash over the
body, prev_hash from get_prev_hash for the agent, and a null batch_id. -/
def newEntry (st : LedgerState) (r : AppendReq) : Entry :=
  { id := st.entries.length
    agent_id := r.agent_id
    user_id := r.user_id
    entry_type := r.entry_type
    body_json := r.body_json
    body_hash := compute_canonical_hash r.body_json
    prev_hash := get_prev_hash st.entries r.agent_id
    batch_id := none
    created_at := st.entries.length
    shared := false }

/-- Append one validated entry to the store. -/
def appendEntry (st : LedgerState) (r : AppendReq) : LedgerState :=
  { st with entries := st.entries ++ [newEntry st r] }

/-- Failure kinds of batch creation. -/
inductive BatchError where
  | emptyInput : BatchError
  | entryNotFound : BatchError
  | alreadyBatched : BatchError
  | mixedOwners : BatchError
deriving Repr, DecidableEq

/-- Modelled from the spec: the root hash of a batch is a digest computed
over the ordered concatenation of the member entries' body hashes, taken
in the documented canonical order. The digest is modelled as a 64-bit
rolling combination, since only reproducibility matters to the claims. -/
def rootHashOf (hashes : List Nat) : Nat :=
  hashes.foldl (fun h d => (h * 1000003 + d) % (2 ^ 64)) 7

/-- Modelled from the spec: the body of the SQL function
create_ledger_batch is not in the repository; its declared signature takes
the list of entry ids. Following section 4.4 of the specification, the
named entries are fetched in canonical order (ascending creation order),
the root hash is computed over their body hashes in that order, and the
batch row plus the batch_id updates are applied as one transaction: on any
invalid id, already batched entry, or mixed ownership, the whole operation
fails and returns an error with no state change. -/
def create_ledger_batch (st : LedgerState) (entryIds : List Nat) :
    Except BatchError (LedgerState × Nat) :=
  if entryIds.isEmpty then .error .emptyInput
  else if entryIds.any (fun i => !(st.entries.any (fun e => e.id == i))) then
    .error .entryNotFound
  else match st.entries.filter (fun e => entryIds.contains e.id) with
  | [] => .error .entryNotFound
  | m :: ms =>
    if (m :: ms).any (fun e => e.batch_id != none) then .error .alreadyBatched
    else if ms.any (fun e => e.user_id != m.user_id) then .error .mixedOwners
    else
      .ok ({ entries := st.entries.map (fun e =>
                if entryIds.contains e.id then
                  { e with batch_id := some st.batches.length } else e)
             batches := st.batches ++ [{
               id := st.batches.length
               user_id := m.user_id
               root_hash := rootHashOf ((m :: ms).map (fun e => e.body_hash))
               entry_count := (m :: ms).length
               from_id := some m.id
               to_id := ((m :: ms).getLast?).map (fun e => e.id) }] },
           st.batches.length)

/-- An operation against the ledger datastore. -/
inductive LedgerOp where
  | append : AppendReq → LedgerOp
  | mkBatch : List Nat → LedgerOp
deriving Repr, DecidableEq

/-- Apply one operation; a failed batch creation leaves the state as it
was, which is exactly the all-or-nothing behavior being modelled. -/
def applyOp (st : LedgerState) : LedgerOp → LedgerState
  | .append r => appendEntry st r
  | .mkBatch ids =>
    match create_ledger_batch st ids with
    | .ok (st2, _) => st2
    | .error _ => st

/-- Run a sequence of operations from the empty datastore. -/
def runOps (ops : List LedgerOp) : LedgerState := ops.foldl applyOp emptyState

/-- Entries of one agent, in creation order. -/
def agentEntries (entries : List Entry) (a : List Nat) : List Entry :=
  entries.filter (fun e => e.agent_id == a)

/-- Hash-chain check for a run of entries whose expected first link is
prev: the head must carry prev as its prev_hash, and each later entry must
carry the body_hash of its predecessor. -/
def chainFrom (prev : Option Nat) : List Entry → Bool
  | [] => true
  | e :: rest => (e.prev_hash == prev) && chainFrom (some e.body_hash) rest

/-- Expected link after a run of entries: the body hash of the last one,
or the incoming link when the run is empty. -/
def endHash (p : Option Nat) : List Entry → Option Nat
  | [] => p
  | e :: rest => endHash (some e.body_hash) rest

theorem getLast?_cons_some (y : Entry) (tl : List Entry) :
    ∃ z, (y :: tl).getLast? = some z := by
  induction tl generalizing y with
  | nil => exact ⟨y, rfl⟩
  | cons w tl2 ih =>
    obtain ⟨z, hz⟩ := ih w
    exact ⟨z, by rw [List.getLast?_cons_cons]; exact hz⟩

theorem endHash_getD (l : List Entry) (p : Option Nat) :
    endHash p l = ((l.getLast?).map (fun e => (some e.body_hash : Option Nat))).getD p := by
  induction l generalizing p with
  | nil => rfl
  | cons x xs ih =>
    rw [show endHash p (x :: xs) = endHash (some x.body_hash) xs from rfl, ih]
    cases xs with
    | nil => rfl
    | cons y tl =>
      obtain ⟨z, hz⟩ := getLast?_cons_some y tl
      rw [List.getLast?_cons_cons, hz]
      rfl

theorem endHash_none (l : List Entry) :
    endHash none l = (l.getLast?).map (fun e => e.body_hash) := by
  rw [endHash_getD]
  cases h : l.getLast? <;> simp

theorem chainFrom_append_one (l : List Entry) (p : Option Nat) (e : Entry) :
    chainFrom p (l ++ [e]) =
      (chainFrom p l && (e.prev_hash == endHash p l)) := by
  induction l generalizing p with
  | nil => simp [chainFrom, endHash]
  | cons x xs ih =>
    simp only [List.cons_append, chainFrom, List.append_eq]
    rw [ih (some x.body_hash)]
    rw [show endHash p (x :: xs) = endHash (some x.body_hash) xs from rfl]
    rw [Bool.and_assoc]

theorem get_prev_hash_eq_endHash (entries : List Entry) (a : List Nat) :
    get_prev_hash entries a = endHash none (agentEntries entries a) := by
  rw [get_prev_hash, endHash_none, agentEntries]

/-- Filtering a mapped list agrees with mapping a filtered list whenever
the predicate after the map coincides pointwise with a predicate before
the map. -/
theorem filter_map_comm (f : Entry → Entry) (p c : Entry → Bool) (l : List Entry)
    (h : ∀ e ∈ l, p (f e) = c e) :
    (l.map f).filter p = (l.filter c).map f := by
  induction l with
  | nil => simp
  | cons x xs ih =>
    have hx := h x (List.mem_cons_self x xs)
    have hxs : ∀ e ∈ xs, p (f e) = c e := fun e he => h e (List.mem_cons_of_mem x he)
    by_cases hp : c x = true
    · simp [List.filter_cons, hx, hp, ih hxs]
    · simp only [Bool.not_eq_true] at hp
      simp [List.filter_cons, hx, hp, ih hxs]

/-- Mapping a function that fixes every element of a list is the identity
on that list. -/
theorem map_id_of_fixed (f : Entry → Entry) (l : List Entry)
    (h : ∀ e ∈ l, f e = e) : l.map f = l := by
  induction l with
  | nil => rfl
  | cons x xs ih =>
    rw [List.map_cons, h x (List.mem_cons_self x xs),
      ih (fun e he => h e (List.mem_cons_of_mem x he))]

/-- Chain checks ignore fields other than prev_hash and body_hash. -/
theorem chainFrom_map (f : Entry → Entry)
    (h1 : ∀ e, (f e).prev_hash = e.prev_hash)
    (h2 : ∀ e, (f e).body_hash = e.body_hash) (p : Option Nat) (l : List Entry) :
    chainFrom p (l.map f) = chainFrom p l := by
  induction l generalizing p with
  | nil => simp
  | cons x xs ih => simp [chainFrom, h1, h2, ih]

/-- The per-agent chain invariant of a datastore state. -/
def chainInv (st : LedgerState) : Prop :=
  ∀ a, chainFrom none (agentEntries st.entries a) = true

/-- Shape of a successful batch creation: the batch list grows by one row
and every entry is either given the fresh batch id or left untouched. -/
theorem create_ledger_batch_ok_shape (st : LedgerState) (ids : List Nat)
    (st2 : LedgerState) (bid : Nat)
    (h : create_ledger_batch st ids = .ok (st2, bid)) :
    st2.entries = st.entries.map (fun e =>
      if ids.contains e.id then { e with batch_id := some st.batches.length } else e) := by
  unfold create_ledger_batch at h
  split at h
  · exact absurd h (by simp)
  · split at h
    · exact absurd h (by simp)
    · split at h
      · exact absurd h (by simp)
      · split at h
        · exact absurd h (by simp)
        · split at h
          · exact absurd h (by simp)
          · simp only [Except.ok.injEq, Prod.mk.injEq] at h
            rw [← h.1]

theorem chainInv_empty : chainInv emptyState := by
  intro a
  simp [emptyState, agentEntries, chainFrom]

theorem chainInv_append (st : LedgerState) (r : AppendReq) (h : chainInv st) :
    chainInv (appendEntry st r) := by
  intro a
  show chainFrom none (agentEntries (st.entries ++ [newEntry st r]) a) = true
  rw [agentEntries, List.filter_append]
  by_cases hag : r.agent_id = a
  · have hone : List.filter (fun e => e.agent_id == a) [newEntry st r] = [newEntry st r] := by
      simp [newEntry, hag]
    rw [hone, ← agentEntries, chainFrom_append_one]
    have hp : (newEntry st r).prev_hash = endHash none (agentEntries st.entries a) := by
      show get_prev_hash st.entries r.agent_id = _
      rw [hag, get_prev_hash_eq_endHash]
    simp [h a, hp]
  · have hone : List.filter (fun e => e.agent_id == a) [newEntry st r] = [] := by
      simp [newEntry, hag]
    rw [hone, List.append_nil, ← agentEntries]
    exact h a

theorem chainInv_applyOp (st : LedgerState) (op : LedgerOp) (h : chainInv st) :
    chainInv (applyOp st op) := by
  cases op with
  | append r => exact chainInv_append st r h
  | mkBatch ids =>
    rw [applyOp]
    split
    · next st2 bid heq =>
      have hsh := create_ledger_batch_ok_shape st ids st2 bid heq
      intro a
      have hfs : agentEntries st2.entries a = (agentEntries st.entries a).map
          (fun e => if ids.contains e.id then { e with batch_id := some st.batches.length } else e) := by
        rw [hsh, agentEntries, agentEntries]
        apply filter_map_comm
        intro e _
        by_cases hc : e.id ∈ ids <;> simp [hc]
      rw [hfs, chainFrom_map]
      · exact h a
      · intro e
        by_cases hc : e.id ∈ ids <;> simp [hc]
      · intro e
        by_cases hc : e.id ∈ ids <;> simp [hc]
    · exact h

theorem chainInv_runOps (ops : List LedgerOp) : chainInv (runOps ops) := by
  have main : ∀ (l : List LedgerOp) (st : LedgerState), chainInv st →
      chainInv (l.foldl applyOp st) := by
    intro l
    induction l with
    | nil => exact fun st h => h
    | cons op tl ih =>
      intro st h
      exact ih (applyOp st op) (chainInv_applyOp st op h)
  exact main ops emptyState chainInv_empty

/-- C1: per-agent chain integrity. For every sequence of operations against
the datastore and every agent, the entries of that agent in creation order
form a hash chain: the first carries a null prev_hash and each later one
carries the body_hash of its immediate predecessor for the same agent. -/
theorem C1_per_agent_chain_integrity (ops : List LedgerOp) (a : List Nat) :
    chainFrom none (agentEntries (runOps ops).entries a) = true :=
  chainInv_runOps ops a

/-- An append request by the user u1 for the agent claude. -/
def chainReqU1 : AppendReq :=
  { agent_id := ascii "claude", user_id := ascii "u1"
    entry_type := ascii "memory", body_json := mkBody [104] }

/-- An append request by the different user u2 for the same agent claude. -/
def chainReqU2 : AppendReq :=
  { agent_id := ascii "claude", user_id := ascii "u2"
    entry_type := ascii "memory", body_json := mkBody [105] }

/-- C2 counterexample: after u1 appends for the agent claude and then u2
appends for the same agent, u2's entry carries the body hash of u1's entry
as its prev_hash, although no prior entry exists for that agent under u2.
The chain linker looks up the latest entry by agent alone: the claim's
user scoping does not hold. -/
theorem C2_counterexample_cross_user_link :
    (runOps [.append chainReqU1, .append chainReqU2]).entries.map
        (fun e => (e.user_id, e.agent_id, e.prev_hash)) =
      [(ascii "u1", ascii "claude", none),
       (ascii "u2", ascii "claude", some (compute_canonical_hash (mkBody [104])))] := by
  decide

theorem mem_of_getLast?_entry (l : List Entry) (p : Entry)
    (h : l.getLast? = some p) : p ∈ l := by
  induction l with
  | nil => exact absurd h (by simp)
  | cons x xs ih =>
    cases xs with
    | nil =>
      simp only [List.getLast?_singleton, Option.some.injEq] at h
      simp [h]
    | cons y tl =>
      rw [List.getLast?_cons_cons] at h
      exact List.mem_cons_of_mem x (ih h)

theorem getLast?_eq_none_iff_entry (l : List Entry) :
    l.getLast? = none ↔ l = [] := by
  cases l with
  | nil => simp
  | cons y tl =>
    obtain ⟨z, hz⟩ := getLast?_cons_some y tl
    simp [hz]

/-- In a list whose creation times strictly increase, the last element has
the greatest creation time. -/
theorem getLast?_max_created (l : List Entry)
    (hs : l.Pairwise (fun a b => a.created_at < b.created_at)) (p : Entry)
    (h : l.getLast? = some p) : ∀ q ∈ l, q = p ∨ q.created_at < p.created_at := by
  induction l with
  | nil => exact fun q hq => absurd hq (by simp)
  | cons x xs ih =>
    cases xs with
    | nil =>
      simp only [List.getLast?_singleton, Option.some.injEq] at h
      intro q hq
      simp only [List.mem_singleton] at hq
      exact Or.inl (hq.trans h)
    | cons y tl =>
      rw [List.getLast?_cons_cons] at h
      have hcross := (List.pairwise_cons.mp hs).1
      have htail := (List.pairwise_cons.mp hs).2
      intro q hq
      rcases List.mem_cons.mp hq with hq1 | hq2
      · right
        rw [hq1]
        exact hcross p (mem_of_getLast?_entry (y :: tl) p h)
      · exact ih htail h q hq2

/-- Creation times in the datastore strictly increase in row order and are
bounded by the number of rows. -/
def createdInv (st : LedgerState) : Prop :=
  st.entries.Pairwise (fun a b => a.created_at < b.created_at) ∧
    ∀ e ∈ st.entries, e.created_at < st.entries.length

theorem createdInv_applyOp (st : LedgerState) (op : LedgerOp) (h : createdInv st) :
    createdInv (applyOp st op) := by
  cases op with
  | append r =>
    obtain ⟨hp, hb⟩ := h
    constructor
    · rw [applyOp, appendEntry]
      rw [List.pairwise_append]
      refine ⟨hp, by simp, ?_⟩
      intro a ha b hb2
      simp only [List.mem_singleton] at hb2
      rw [hb2]
      exact hb a ha
    · rw [applyOp, appendEntry]
      intro e he
      simp only [List.mem_append, List.mem_singleton] at he
      rcases he with he1 | he2
      · have := hb e he1
        simp only [List.length_append, List.length_singleton]
        omega
      · rw [he2]
        simp [newEntry]
  | mkBatch ids =>
    rw [applyOp]
    split
    · next st2 bid heq =>
      have hsh := create_ledger_batch_ok_shape st ids st2 bid heq
      obtain ⟨hp, hb⟩ := h
      constructor
      · rw [hsh, List.pairwise_map]
        apply hp.imp
        intro a b hab
        by_cases hca : a.id ∈ ids <;> by_cases hcb : b.id ∈ ids <;> simpa [hca, hcb] using hab
      · rw [hsh]
        intro e he
        simp only [List.mem_map] at he
        obtain ⟨e0, he0, heq0⟩ := he
        have := hb e0 he0
        rw [List.length_map, ← heq0]
        by_cases hc : e0.id ∈ ids <;> simpa [hc]
    · exact h

theorem createdInv_runOps (ops : List LedgerOp) : createdInv (runOps ops) := by
  have main : ∀ (l : List LedgerOp) (st : LedgerState), createdInv st →
      createdInv (l.foldl applyOp st) := by
    intro l
    induction l with
    | nil => exact fun st h => h
    | cons op tl ih => exact fun st h => ih (applyOp st op) (createdInv_applyOp st op h)
  exact main ops emptyState ⟨by simp [emptyState], by simp [emptyState]⟩

/-- C2 amended: the chain-linker lookup is scoped to the agent alone. For
every reachable datastore state and every append, the attached prev_hash
is null exactly when no entry at all exists for that agent, under any
user; and when some entry for the agent exists, the attached prev_hash is
the body_hash of the most recently created entry with that agent_id,
whatever its user_id. -/
theorem C2_amended_agent_only_scope (ops : List LedgerOp) (r : AppendReq) :
    ((newEntry (runOps ops) r).prev_hash = none ↔
        agentEntries (runOps ops).entries r.agent_id = []) ∧
    (∀ q ∈ (runOps ops).entries, q.agent_id = r.agent_id →
      ∃ p ∈ (runOps ops).entries, p.agent_id = r.agent_id ∧
        (newEntry (runOps ops) r).prev_hash = some p.body_hash ∧
        ∀ q2 ∈ (runOps ops).entries, q2.agent_id = r.agent_id →
          q2.created_at ≤ p.created_at) := by
  have hprev : (newEntry (runOps ops) r).prev_hash =
      ((agentEntries (runOps ops).entries r.agent_id).getLast?).map
        (fun e => e.body_hash) := rfl
  constructor
  · rw [hprev, Option.map_eq_none', getLast?_eq_none_iff_entry]
  · intro q hq hqa
    have hne : agentEntries (runOps ops).entries r.agent_id ≠ [] := by
      intro hnil
      have : q ∈ agentEntries (runOps ops).entries r.agent_id := by
        rw [agentEntries, List.mem_filter]
        exact ⟨hq, by simp [hqa]⟩
      rw [hnil] at this
      exact absurd this (by simp)
    obtain ⟨p, hp⟩ : ∃ p, (agentEntries (runOps ops).entries r.agent_id).getLast? = some p := by
      cases hl : agentEntries (runOps ops).entries r.agent_id with
      | nil => exact absurd hl hne
      | cons y tl =>
        obtain ⟨z, hz⟩ := getLast?_cons_some y tl
        exact ⟨z, hz⟩
    have hpmem := mem_of_getLast?_entry _ p hp
    have hpmem2 := List.mem_filter.mp hpmem
    have hsorted : (agentEntries (runOps ops).entries r.agent_id).Pairwise
        (fun a b => a.created_at < b.created_at) :=
      (createdInv_runOps ops).1.sublist (List.filter_sublist _)
    refine ⟨p, hpmem2.1, by simpa using hpmem2.2, ?_, ?_⟩
    · rw [hprev, hp]
      rfl
    · intro q2 hq2 hq2a
      have hq2mem : q2 ∈ agentEntries (runOps ops).entries r.agent_id := by
        rw [agentEntries, List.mem_filter]
        exact ⟨hq2, by simp [hq2a]⟩
      rcases getLast?_max_created _ hsorted p hp q2 hq2mem with heq2 | hlt
      · rw [heq2]
      · exact Nat.le_of_lt hlt

/-- C4: batch creation is all-or-nothing. Whenever the id list names an
unknown entry, an already batched entry, or entries of two different
owners, create_ledger_batch returns an error, and applying the operation
leaves the datastore exactly as it was: no batch row is created and no
entry's batch_id is modified. -/
theorem C4_batch_failure_has_no_effect (st : LedgerState) (ids : List Nat)
    (h : (∃ i ∈ ids, ∀ e ∈ st.entries, e.id ≠ i) ∨
         (∃ e ∈ st.entries, e.id ∈ ids ∧ e.batch_id ≠ none) ∨
         (∃ e1 ∈ st.entries, ∃ e2 ∈ st.entries,
            e1.id ∈ ids ∧ e2.id ∈ ids ∧ e1.user_id ≠ e2.user_id)) :
    (∃ err, create_ledger_batch st ids = .error err) ∧
    applyOp st (.mkBatch ids) = st := by
  have herr : ∃ err, create_ledger_batch st ids = .error err := by
    by_cases h1 : ids.isEmpty
    · exact ⟨.emptyInput, by simp [create_ledger_batch, h1]⟩
    · by_cases h2 : ids.any (fun i => !(st.entries.any (fun e => e.id == i)))
      · refine ⟨.entryNotFound, ?_⟩
        rw [create_ledger_batch, if_neg (by simpa using h1), if_pos h2]
      · cases hm : st.entries.filter (fun e => ids.contains e.id) with
        | nil =>
          refine ⟨.entryNotFound, ?_⟩
          rw [create_ledger_batch, if_neg (by simpa using h1)]
          rw [if_neg (by simpa using h2)]
          rw [hm]
        | cons m ms =>
          by_cases h3 : (m :: ms).any (fun e => e.batch_id != none)
          · refine ⟨.alreadyBatched, ?_⟩
            rw [create_ledger_batch, if_neg (by simpa using h1),
              if_neg (by simpa using h2), hm]
            dsimp only
            rw [if_pos h3]
          · by_cases h4 : ms.any (fun e => e.user_id != m.user_id)
            · refine ⟨.mixedOwners, ?_⟩
              rw [create_ledger_batch, if_neg (by simpa using h1),
                if_neg (by simpa using h2), hm]
              dsimp only
              rw [if_neg h3, if_pos h4]
            · exfalso
              have hfound : ∀ i ∈ ids, ∃ e ∈ st.entries, e.id = i := by
                intro i hi
                by_contra hno
                push_neg at hno
                apply h2
                rw [List.any_eq_true]
                refine ⟨i, hi, ?_⟩
                simp only [Bool.not_eq_true', List.any_eq_false]
                intro e he
                simpa using hno e he
              have hmem : ∀ e ∈ st.entries, e.id ∈ ids → e ∈ m :: ms := by
                intro e he hin
                rw [← hm]
                rw [List.mem_filter]
                exact ⟨he, by simpa using hin⟩
              have hnone : ∀ e ∈ m :: ms, e.batch_id = none := by
                intro e he
                have := h3
                simp only [List.any_eq_true, not_exists] at this
                by_contra hne
                exact this e ⟨he, by simpa using hne⟩
              have huser : ∀ e ∈ m :: ms, e.user_id = m.user_id := by
                intro e he
                rcases List.mem_cons.mp he with h5 | h5
                · rw [h5]
                · simp only [List.any_eq_true, not_exists] at h4
                  by_contra hne
                  exact h4 e ⟨h5, by simpa using hne⟩
              rcases h with ⟨i, hi, hno⟩ | ⟨e, he, hin, hbatch⟩ | ⟨e1, he1, e2, he2, hi1, hi2, hneq⟩
              · obtain ⟨e, he, heid⟩ := hfound i hi
                exact hno e he heid
              · exact hbatch (hnone e (hmem e he hin))
              · exact hneq ((huser e1 (hmem e1 he1 hi1)).trans
                  (huser e2 (hmem e2 he2 hi2)).symm)
  obtain ⟨err, he⟩ := herr
  exact ⟨⟨err, he⟩, by simp [applyOp, he]⟩

/-- A datastore holding one already batched entry, for exercising the
batch failure theorem. -/
def badBatchState : LedgerState :=
  { entries := [{
      id := 0, agent_id := ascii "claude", user_id := ascii "u1"
      entry_type := ascii "memory", body_json := mkBody [104]
      body_hash := 0, prev_hash := none, batch_id := some 0
      created_at := 0, shared := false }]
    batches := [{
      id := 0, user_id := ascii "u1", root_hash := 0
      entry_count := 1, from_id := some 0, to_id := some 0 }] }

theorem C4_batch_failure_witness :
    ((∃ i ∈ [0], ∀ e ∈ badBatchState.entries, e.id ≠ i) ∨
     (∃ e ∈ badBatchState.entries, e.id ∈ [0] ∧ e.batch_id ≠ none) ∨
     (∃ e1 ∈ badBatchState.entries, ∃ e2 ∈ badBatchState.entries,
        e1.id ∈ [0] ∧ e2.id ∈ [0] ∧ e1.user_id ≠ e2.user_id)) ∧
    ((∃ err, create_ledger_batch badBatchState [0] = .error err) ∧
      applyOp badBatchState (.mkBatch [0]) = badBatchState) := by
  have h : (∃ i ∈ [0], ∀ e ∈ badBatchState.entries, e.id ≠ i) ∨
      (∃ e ∈ badBatchState.entries, e.id ∈ [0] ∧ e.batch_id ≠ none) ∨
      (∃ e1 ∈ badBatchState.entries, ∃ e2 ∈ badBatchState.entries,
        e1.id ∈ [0] ∧ e2.id ∈ [0] ∧ e1.user_id ≠ e2.user_id) := by
    refine Or.inr (Or.inl ?_)
    exact ⟨badBatchState.entries.head (by decide), by decide⟩
  exact ⟨h, C4_batch_failure_has_no_effect badBatchState [0] h⟩

/-- Members of a batch: the entries whose batch_id points at it, in
creation order, which is the documented canonical order. -/
def batchMembers (st : LedgerState) (bid : Nat) : List Entry :=
  st.entries.filter (fun e => e.batch_id == some bid)

/-- The batch consistency property of a state: every batch row counts
exactly its members and carries the root hash recomputable from their body
hashes in canonical order. -/
def batchConsistent (st : LedgerState) : Prop :=
  ∀ b ∈ st.batches,
    b.entry_count = (batchMembers st b.id).length ∧
    b.root_hash = rootHashOf ((batchMembers st b.id).map (fun e => e.body_hash))

/-- Structural facts maintained by the datastore: batch identifiers stay
below the number of batch rows, and entries only point at existing
batches. -/
def stateWF (st : LedgerState) : Prop :=
  (∀ b ∈ st.batches, b.id < st.batches.length) ∧
  (∀ e ∈ st.entries, ∀ k, e.batch_id = some k → k < st.batches.length)

theorem create_ledger_batch_ok_full (st : LedgerState) (ids : List Nat)
    (st2 : LedgerState) (bid : Nat)
    (h : create_ledger_batch st ids = .ok (st2, bid)) :
    ∃ m ms, st.entries.filter (fun e => ids.contains e.id) = m :: ms ∧
      bid = st.batches.length ∧
      st2.entries = st.entries.map (fun e =>
        if ids.contains e.id then { e with batch_id := some st.batches.length } else e) ∧
      st2.batches = st.batches ++ [{
        id := st.batches.length
        user_id := m.user_id
        root_hash := rootHashOf ((m :: ms).map (fun e => e.body_hash))
        entry_count := (m :: ms).length
        from_id := some m.id
        to_id := ((m :: ms).getLast?).map (fun e => e.id) }] ∧
      (∀ e ∈ (m :: ms), e.batch_id = none) := by
  unfold create_ledger_batch at h
  split at h
  · exact absurd h (by simp)
  · split at h
    · exact absurd h (by simp)
    · split at h
      · exact absurd h (by simp)
      · next m ms heqf =>
        split at h
        · exact absurd h (by simp)
        · split at h
          · exact absurd h (by simp)
          · next h3 h4 =>
            simp only [Except.ok.injEq, Prod.mk.injEq] at h
            refine ⟨m, ms, heqf, h.2.symm, ?_, ?_, ?_⟩
            · rw [← h.1]
            · rw [← h.1]
            · intro e he
              simp only [List.any_eq_true, not_exists] at h3
              by_contra hne
              exact h3 e ⟨he, by simpa using hne⟩

theorem batchInv_applyOp (st : LedgerState) (op : LedgerOp)
    (h : stateWF st ∧ batchConsistent st) :
    stateWF (applyOp st op) ∧ batchConsistent (applyOp st op) := by
  obtain ⟨⟨hwb, hwe⟩, hc⟩ := h
  cases op with
  | append r =>
    constructor
    · constructor
      · intro b hb
        simpa [applyOp, appendEntry] using hwb b (by simpa [applyOp, appendEntry] using hb)
      · intro e he k hk
        rw [applyOp, appendEntry] at he
        simp only [List.mem_append, List.mem_singleton] at he
        rcases he with he1 | he2
        · exact hwe e he1 k hk
        · rw [he2] at hk
          exact absurd hk (by simp [newEntry])
    · intro b hb
      have hb0 : b ∈ st.batches := by simpa [applyOp, appendEntry] using hb
      have hmem : batchMembers (applyOp st (.append r)) b.id = batchMembers st b.id := by
        rw [applyOp, appendEntry, batchMembers, batchMembers]
        simp [List.filter_append, newEntry]
      rw [hmem]
      exact hc b hb0
  | mkBatch ids =>
    rw [applyOp]
    split
    · next st2 bid heq =>
      obtain ⟨m, ms, heqf, hbid, hent, hbat, hnone⟩ :=
        create_ledger_batch_ok_full st ids st2 bid heq
      have hmemnone : ∀ e ∈ st.entries, e.id ∈ ids → e.batch_id = none := by
        intro e he hin
        apply hnone
        rw [← heqf, List.mem_filter]
        exact ⟨he, by simpa using hin⟩
      have holdmem : ∀ b ∈ st.batches, batchMembers st2 b.id = batchMembers st b.id := by
        intro b hb
        have hlt := hwb b hb
        rw [batchMembers, batchMembers, hent]
        rw [filter_map_comm _ _ (fun e => e.batch_id == some b.id) _ ?_]
        · apply map_id_of_fixed
          intro e he
          rw [List.mem_filter] at he
          have hnone2 : e.batch_id = some b.id := by simpa using he.2
          have hnin : e.id ∉ ids := by
            intro hin
            rw [hmemnone e he.1 hin] at hnone2
            exact absurd hnone2 (by simp)
          simp [hnin]
        · intro e he
          by_cases hin : e.id ∈ ids
          · have h1 : e.batch_id = none := hmemnone e he hin
            simp [hin, h1, Nat.ne_of_gt hlt]
          · simp [hin]
      have hnewmem : batchMembers st2 st.batches.length = (m :: ms).map (fun e =>
          if ids.contains e.id then { e with batch_id := some st.batches.length } else e) := by
        rw [batchMembers, hent, ← heqf]
        apply filter_map_comm
        intro e he
        by_cases hin : e.id ∈ ids
        · simp [hin]
        · rcases hbk : e.batch_id with _ | k
          · simp [hin, hbk]
          · have := hwe e he k hbk
            simp [hin, hbk, Nat.ne_of_lt this]
      constructor
      · constructor
        · intro b hb
          rw [hbat] at hb
          rw [hbat, List.length_append, List.length_singleton]
          simp only [List.mem_append, List.mem_singleton] at hb
          rcases hb with hb1 | hb2
          · have := hwb b hb1
            omega
          · rw [hb2]
            simp
        · intro e he k hk
          rw [hent] at he
          simp only [List.mem_map] at he
          obtain ⟨e0, he0, heq0⟩ := he
          rw [hbat, List.length_append, List.length_singleton]
          by_cases hin : e0.id ∈ ids
          · rw [← heq0] at hk
            rw [if_pos (by simpa using hin)] at hk
            have h5 : st.batches.length = k := Option.some.inj hk
            omega
          · rw [← heq0] at hk
            have : e0.batch_id = some k := by simpa [hin] using hk
            have := hwe e0 he0 k this
            omega
      · intro b hb
        rw [hbat] at hb
        simp only [List.mem_append, List.mem_singleton] at hb
        rcases hb with hb1 | hb2
        · rw [holdmem b hb1]
          exact hc b hb1
        · rw [hb2]
          simp only
          rw [hnewmem]
          constructor
          · rw [List.length_map]
          · rw [List.map_map]
            congr 1
            apply List.map_congr_left
            intro e _
            by_cases hin : e.id ∈ ids <;> simp [hin]
    · exact ⟨⟨hwb, hwe⟩, hc⟩

theorem batchInv_runOps (ops : List LedgerOp) :
    stateWF (runOps ops) ∧ batchConsistent (runOps ops) := by
  have main : ∀ (l : List LedgerOp) (st : LedgerState),
      stateWF st ∧ batchConsistent st →
      stateWF (l.foldl applyOp st) ∧ batchConsistent (l.foldl applyOp st) := by
    intro l
    induction l with
    | nil => exact fun st h => h
    | cons op tl ih => exact fun st h => ih (applyOp st op) (batchInv_applyOp st op h)
  refine main ops emptyState ⟨⟨?_, ?_⟩, ?_⟩ <;> simp [emptyState, stateWF, batchConsistent]

/-- C5: batch consistency. In every state reachable by appends and batch
creations, every persisted batch row's entry_count equals the number of
ledger entries whose batch_id points at it, and its root_hash is
reproducible by recomputing the root hash over those entries' body hashes
in the canonical creation order. -/
theorem C5_batch_consistency (ops : List LedgerOp) :
    ∀ b ∈ (runOps ops).batches,
      b.entry_count = (batchMembers (runOps ops) b.id).length ∧
      b.root_hash = rootHashOf ((batchMembers (runOps ops) b.id).map (fun e => e.body_hash)) :=
  (batchInv_runOps ops).2

/-- Operations producing one batch over two entries of the same user. -/
def wOps : List LedgerOp :=
  [.append chainReqU1, .append chainReqU1, .mkBatch [0, 1]]

/-- The batch row those operations produce. -/
def wBatch : Batch :=
  { id := 0
    user_id := ascii "u1"
    root_hash := rootHashOf
      [compute_canonical_hash (mkBody [104]), compute_canonical_hash (mkBody [104])]
    entry_count := 2
    from_id := some 0
    to_id := some 1 }

theorem C5_batch_consistency_witness :
    wBatch ∈ (runOps wOps).batches ∧
    (wBatch.entry_count = (batchMembers (runOps wOps) wBatch.id).length ∧
      wBatch.root_hash =
        rootHashOf ((batchMembers (runOps wOps) wBatch.id).map (fun e => e.body_hash))) :=
  ⟨by decide, C5_batch_consistency wOps wBatch (by decide)⟩

/-- Lookup of an object field by key, as JavaScript property access on a
parsed JSON object. -/
def getField : JsonFields → List Nat → Option Json
  | .nil, _ => none
  | .cons k v tl, key => if k == key then some v else getField tl key

/-- JavaScript truthiness of a JSON value: null, false, zero and the empty
string are falsy; every object and array is truthy. -/
def jsTruthy : Json → Bool
  | .jnull => false
  | .jbool b => b
  | .jnum i => i != 0
  | .jstr s => !s.isEmpty
  | .jarr _ => true
  | .jobj _ => true

/-- Truthiness of a property of the body, as the gateway's checks read it:
property access on a non-object yields undefined, which is falsy. -/
def truthyField (b : Json) (key : List Nat) : Bool :=
  match b with
  | .jobj kvs => ((getField kvs key).map jsTruthy).getD false
  | _ => false

/-- The gateway's typeof-object test: objects and arrays pass (typeof of a
JavaScript array is object); null has already been excluded by the
preceding falsiness test. -/
def isObjectLike : Json → Bool
  | .jobj _ => true
  | .jarr _ => true
  | _ => false

/-- New-format body shape: truthy content and actor fields. -/
def hasNewFormat (b : Json) : Bool :=
  truthyField b (ascii "content") && truthyField b (ascii "actor")

/-- Legacy body shape: truthy id, t, actor and summary fields. -/
def hasOldFormat (b : Json) : Bool :=
  truthyField b (ascii "id") && truthyField b (ascii "t") &&
    truthyField b (ascii "actor") && truthyField b (ascii "summary")

/-- Whitespace for the JavaScript string trim used on agent_id. -/
def isWsJs (c : Nat) : Bool :=
  c = 32 || (9 ≤ c && c ≤ 13) || c = 160 || c = 65279

/-- JavaScript String.trim on code units. -/
def trimUnits (s : List Nat) : List Nat :=
  ((s.dropWhile isWsJs).reverse.dropWhile isWsJs).reverse

/-- Fueled scanner removing the first occurrence of the text Bearer and a
space, as the gateway's replace call does on the authorization header. -/
def removeBearerF : Nat → List Nat → List Nat
  | 0, l => l
  | _, [] => []
  | f + 1, c :: rest =>
    if (c :: rest).take 7 = ascii "Bearer " then rest.drop 6
    else c :: removeBearerF f rest

def removeBearer (l : List Nat) : List Nat := removeBearerF l.length l

/-- The closed set of entry types enforced by the check constraint
valid_entry_type of migration 20251011162914. -/
def allowedEntryTypes : List (List Nat) :=
  [ascii "memory", ascii "context", ascii "experience",
   ascii "consolidation", ascii "anchor_memory"]

/-- Error kinds of the submission gateway, one per distinct rejection path
of the save-to-ledger function: the 401 responses, the 400 validation
responses, and the 500 response produced when the database insert is
rejected (in particular by the valid_entry_type check constraint). -/
inductive SubmitError where
  | missingAuthHeader : SubmitError
  | unauthorized : SubmitError
  | invalidAgentId : SubmitError
  | missingEntryType : SubmitError
  | invalidBodyJson : SubmitError
  | invalidBodyShape : SubmitError
  | sanitizeFailed : SubmitError
  | insertRejected : SubmitError
deriving Repr, DecidableEq

/-- The confirmation fields the gateway returns on success. -/
structure SubmitResp where
  ledger_entry_id : Nat
  body_hash : Nat
  prev_hash : Option Nat
deriving Repr, DecidableEq

/-- The parsed request body of a submission: the three properties the
gateway destructures, each possibly absent. -/
structure ReqBody where
  agent_id : Option Json
  entry_type : Option Json
  body_json : Option Json
deriving Repr, DecidableEq

/-- The database insert of a ledger entry: the valid_entry_type check
constraint rejects any entry_type outside the closed set (and any
non-text value), and on success the modelled trigger fills body_hash and
prev_hash through newEntry. -/
def insertLedgerEntry (st : LedgerState) (agentId userId : List Nat)
    (entryType : Json) (body : Json) : Option (LedgerState × Entry) :=
  match entryType with
  | .jstr t =>
    if allowedEntryTypes.contains t then
      some (appendEntry st { agent_id := agentId, user_id := userId
                             entry_type := t, body_json := body },
            newEntry st { agent_id := agentId, user_id := userId
                          entry_type := t, body_json := body })
    else none
  | _ => none

/-- The submission gateway, the save-to-ledger edge function: authenticate
the caller from the authorization header, validate agent_id, entry_type
and the body shape, sanitize the body, and insert the entry with the
caller's user id; every failure returns an error and leaves the datastore
unchanged. -/
def submitEntry (authUser : List Nat → Option (List Nat))
    (authHeader : Option (List Nat)) (req : ReqBody) (st : LedgerState) :
    LedgerState × Except SubmitError SubmitResp :=
  match authHeader with
  | none => (st, .error .missingAuthHeader)
  | some hd =>
    match authUser (removeBearer hd) with
    | none => (st, .error .unauthorized)
    | some uid =>
      match req.agent_id with
      | some (.jstr a) =>
        if (trimUnits a).isEmpty then (st, .error .invalidAgentId)
        else
          match req.entry_type with
          | none => (st, .error .missingEntryType)
          | some et =>
            if !jsTruthy et then (st, .error .missingEntryType)
            else
              match req.body_json with
              | none => (st, .error .invalidBodyJson)
              | some b =>
                if !(jsTruthy b && isObjectLike b) then (st, .error .invalidBodyJson)
                else if !(hasNewFormat b || hasOldFormat b) then
                  (st, .error .invalidBodyShape)
                else
                  match sanitizeBodyJson b with
                  | none => (st, .error .sanitizeFailed)
                  | some sb =>
                    match insertLedgerEntry st a uid et sb with
                    | none => (st, .error .insertRejected)
                    | some (st2, e) =>
                      (st2, .ok { ledger_entry_id := e.id
                                  body_hash := e.body_hash
                                  prev_hash := e.prev_hash })
      | _ => (st, .error .invalidAgentId)

/-- Whether a request's entry_type field is a string of the closed set. -/
def entryTypeAllowed : Option Json → Bool
  | some (.jstr t) => allowedEntryTypes.contains t
  | _ => false

theorem insertLedgerEntry_some_entryType (st : LedgerState)
    (agentId userId : List Nat) (entryType : Json) (body : Json)
    (x : LedgerState × Entry)
    (h : insertLedgerEntry st agentId userId entryType body = some x) :
    entryTypeAllowed (some entryType) = true := by
  unfold insertLedgerEntry at h
  split at h
  · next t =>
    split at h
    · next ht => simpa [entryTypeAllowed] using ht
    · exact absurd h (by simp)
  · exact absurd h (by simp)

/-- C6: an entry_type outside the closed set of memory, context,
experience, consolidation and anchor_memory is always rejected: the
submission returns an error and the datastore is unchanged, so no
ledger_entries row is persisted. An absent or falsy entry_type fails the
gateway's own validation; a truthy one outside the set fails the
valid_entry_type check constraint at the insert. -/
theorem C6_invalid_entry_type_rejected (authUser : List Nat → Option (List Nat))
    (authHeader : Option (List Nat)) (req : ReqBody) (st : LedgerState)
    (h : entryTypeAllowed req.entry_type = false) :
    (submitEntry authUser authHeader req st).1 = st ∧
    ∃ err, (submitEntry authUser authHeader req st).2 = .error err := by
  suffices hs : ∀ res, submitEntry authUser authHeader req st = res →
      res.1 = st ∧ ∃ err, res.2 = .error err from hs _ rfl
  intro res hres
  unfold submitEntry at hres
  split at hres
  · rw [← hres]
    exact ⟨rfl, .missingAuthHeader, rfl⟩
  · split at hres
    · rw [← hres]
      exact ⟨rfl, .unauthorized, rfl⟩
    · split at hres
      · split at hres
        · rw [← hres]
          exact ⟨rfl, .invalidAgentId, rfl⟩
        · split at hres
          · rw [← hres]
            exact ⟨rfl, .missingEntryType, rfl⟩
          · split at hres
            · rw [← hres]
              exact ⟨rfl, .missingEntryType, rfl⟩
            · split at hres
              · rw [← hres]
                exact ⟨rfl, .invalidBodyJson, rfl⟩
              · split at hres
                · rw [← hres]
                  exact ⟨rfl, .invalidBodyJson, rfl⟩
                · split at hres
                  · rw [← hres]
                    exact ⟨rfl, .invalidBodyShape, rfl⟩
                  · split at hres
                    · rw [← hres]
                      exact ⟨rfl, .sanitizeFailed, rfl⟩
                    · split at hres
                      · rw [← hres]
                        exact ⟨rfl, .insertRejected, rfl⟩
                      · next st2e heq =>
                        exfalso
                        have htrue := insertLedgerEntry_some_entryType _ _ _ _ _ _ heq
                        simp_all
      · rw [← hres]
        exact ⟨rfl, .invalidAgentId, rfl⟩

/-- Resolution of the caller identity: the authorization header, stripped
of its Bearer marker, must resolve to a concrete user id. -/
def resolveCaller (authUser : List Nat → Option (List Nat))
    (authHeader : Option (List Nat)) : Option (List Nat) :=
  authHeader.bind (fun hd => authUser (removeBearer hd))

/-- C7: every unauthenticated request is rejected. When the request does
not resolve to a concrete user id, either because the authorization
header is missing or because the token does not verify, the gateway
returns the corresponding 401 error and the datastore is unchanged: no
entry is persisted. -/
theorem C7_unauthenticated_rejected (authUser : List Nat → Option (List Nat))
    (authHeader : Option (List Nat)) (req : ReqBody) (st : LedgerState)
    (h : resolveCaller authUser authHeader = none) :
    (submitEntry authUser authHeader req st).1 = st ∧
    ∃ err, (submitEntry authUser authHeader req st).2 = .error err ∧
      (err = .missingAuthHeader ∨ err = .unauthorized) := by
  cases authHeader with
  | none => exact ⟨rfl, .missingAuthHeader, rfl, Or.inl rfl⟩
  | some hd =>
    have h2 : authUser (removeBearer hd) = none := by
      simpa [resolveCaller] using h
    refine ⟨?_, .unauthorized, ?_, Or.inr rfl⟩
    · simp [submitEntry, h2]
    · simp [submitEntry, h2]

/-- An authenticator accepting every token as the user u1. -/
def authOk : List Nat → Option (List Nat) := fun _ => some (ascii "u1")

/-- An authenticator rejecting every token. -/
def authNone : List Nat → Option (List Nat) := fun _ => none

/-- A request carrying the unknown entry type bogus with an otherwise
valid shape. -/
def bogusReq : ReqBody :=
  { agent_id := some (.jstr (ascii "claude"))
    entry_type := some (.jstr (ascii "bogus"))
    body_json := some (mkBody [104]) }

theorem C6_invalid_entry_type_witness :
    entryTypeAllowed bogusReq.entry_type = false ∧
    ((submitEntry authOk (some (ascii "Bearer t")) bogusReq emptyState).1 = emptyState ∧
      ∃ err, (submitEntry authOk (some (ascii "Bearer t")) bogusReq emptyState).2 =
        .error err) :=
  ⟨by decide,
   C6_invalid_entry_type_rejected authOk (some (ascii "Bearer t")) bogusReq emptyState
     (by decide)⟩

theorem C7_unauthenticated_witness :
    resolveCaller authNone (some (ascii "Bearer t")) = none ∧
    ((submitEntry authNone (some (ascii "Bearer t")) bogusReq emptyState).1 = emptyState ∧
      ∃ err, (submitEntry authNone (some (ascii "Bearer t")) bogusReq emptyState).2 =
          .error err ∧ (err = .missingAuthHeader ∨ err = .unauthorized)) :=
  ⟨by decide,
   C7_unauthenticated_rejected authNone (some (ascii "Bearer t")) bogusReq emptyState
     (by decide)⟩

/-- Database roles a request can run under. -/
inductive DbRole where
  | anon : DbRole
  | authenticated : DbRole
  | serviceRole : DbRole
deriving Repr, DecidableEq

/-- A caller: its database role and the authenticated user id, if any. -/
structure Caller where
  role : DbRole
  uid : Option (List Nat)
deriving Repr, DecidableEq

/-- A row-level security configuration of the ledger tables: whether RLS
is enabled on them, and which roles hold the table-level SELECT and UPDATE
privileges. An early backdoor migration disabled RLS on ledger_entries and
ledger_batches and granted ALL to the anon and authenticated roles; it was
superseded before 2025-08-30, when migration 20250830002024 dropped the
policies left on those RLS-disabled tables and the 20250908 security-fix
migrations re-enabled RLS. At the repository head, migration
20251012163256 leaves RLS enabled with user-scoped SELECT policies and
service-role-only write policies. -/
structure RlsConfig where
  rlsEnabled : Bool
  selectGranted : DbRole → Bool
  updateGranted : DbRole → Bool

/-- The permissive SELECT policies of migration 20251012163256 on
ledger_entries, combined by disjunction: a caller with the authenticated
role sees its own rows, and an admin sees all rows. The has_role check is
a parameter, since the user_roles lookup is opaque to these claims. -/
def entrySelectPolicy (isAdmin : List Nat → Bool) (c : Caller) (e : Entry) : Bool :=
  (c.role == .authenticated) &&
    (match c.uid with
     | some u => (u == e.user_id) || isAdmin u
     | none => false)

/-- The matching SELECT policies on ledger_batches. -/
def batchSelectPolicy (isAdmin : List Nat → Bool) (c : Caller) (b : Batch) : Bool :=
  (c.role == .authenticated) &&
    (match c.uid with
     | some u => (u == b.user_id) || isAdmin u
     | none => false)

/-- Rows of ledger_entries a caller can read: nothing without the SELECT
privilege; everything when RLS is disabled or the caller is the service
role (which bypasses RLS); otherwise the rows its policies allow. -/
def visibleEntries (cfg : RlsConfig) (isAdmin : List Nat → Bool) (c : Caller)
    (entries : List Entry) : List Entry :=
  if !cfg.selectGranted c.role then []
  else if !cfg.rlsEnabled || c.role == .serviceRole then entries
  else entries.filter (entrySelectPolicy isAdmin c)

/-- Rows of ledger_batches a caller can read. -/
def visibleBatches (cfg : RlsConfig) (isAdmin : List Nat → Bool) (c : Caller)
    (batches : List Batch) : List Batch :=
  if !cfg.selectGranted c.role then []
  else if !cfg.rlsEnabled || c.role == .serviceRole then batches
  else batches.filter (batchSelectPolicy isAdmin c)

/-- A row of the ledger_verification view: the entry columns joined with
its batch's root hash when the batch row is readable (the view carries no
user_id column; the opaque external anchor columns are omitted as no
claim mentions them). -/
structure VerificationRow where
  id : Nat
  agent_id : List Nat
  entry_type : List Nat
  body_json : Json
  body_hash : Nat
  prev_hash : Option Nat
  created_at : Nat
  batch_id : Option Nat
  batch_root_hash : Option Nat
deriving Repr, DecidableEq

def toVerificationRow (batches : List Batch) (e : Entry) : VerificationRow :=
  { id := e.id
    agent_id := e.agent_id
    entry_type := e.entry_type
    body_json := e.body_json
    body_hash := e.body_hash
    prev_hash := e.prev_hash
    created_at := e.created_at
    batch_id := e.batch_id
    batch_root_hash := e.batch_id.bind (fun k =>
      (batches.find? (fun b => b.id == k)).map (fun b => b.root_hash)) }

/-- Listing the ledger_verification view: the view was recreated with
security_invoker, so it reads the base tables with the caller's own
privileges and policies, left-joining each visible entry to its batch
among the visible batches. -/
def listVerification (cfg : RlsConfig) (isAdmin : List Nat → Bool) (c : Caller)
    (st : LedgerState) : List VerificationRow :=
  (visibleEntries cfg isAdmin c st.entries).map
    (toVerificationRow (visibleBatches cfg isAdmin c st.batches))

/-- The configuration at the repository head, after migration
20251012163256: RLS enabled, with the standard table grants in place and
scoping done by the policies. -/
def cfgUserScoped : RlsConfig :=
  { rlsEnabled := true
    selectGranted := fun _ => true
    updateGranted := fun _ => true }

/-- The historical configuration created by the early backdoor migration:
row-level security disabled on the ledger tables and ALL privileges
granted to the anon and authenticated roles. It was reverted by the
20250830 policy cleanup and the 20250908 re-enabling security fixes, and
is kept here only to contrast with the head configuration. -/
def cfgBackdoor : RlsConfig :=
  { rlsEnabled := false
    selectGranted := fun _ => true
    updateGranted := fun _ => true }

/-- The has_role lookup for a system with no admins. -/
def noAdmin : List Nat → Bool := fun _ => false

/-- The non-admin caller u2. -/
def callerU2 : Caller := { role := .authenticated, uid := some (ascii "u2") }

/-- A datastore holding one entry of u1 and one entry of u2. -/
def twoUserState : LedgerState :=
  runOps [.append chainReqU1, .append chainReqU2]

/-- C8: tenant isolation at the repository head. Under the user-scoped
configuration of migration 20251012163256, read through the
security_invoker verification view, every row a non-admin caller receives
comes from an entry whose owning user id is the caller's own: rows of
other users are never returned. The caller is an anon or authenticated
request; the service credential bypasses RLS by design and is not a
caller of the view. -/
theorem C8_user_scoped_tenant_isolation (isAdmin : List Nat → Bool) (c : Caller)
    (st : LedgerState) (hadmin : ∀ u, c.uid = some u → isAdmin u = false)
    (hrole : c.role ≠ DbRole.serviceRole) :
    ∀ r ∈ listVerification cfgUserScoped isAdmin c st,
      ∃ e ∈ st.entries,
        toVerificationRow (visibleBatches cfgUserScoped isAdmin c st.batches) e = r ∧
        some e.user_id = c.uid := by
  intro r hr
  rw [listVerification, List.mem_map] at hr
  obtain ⟨e, he, heq⟩ := hr
  have hvis : visibleEntries cfgUserScoped isAdmin c st.entries =
      st.entries.filter (entrySelectPolicy isAdmin c) := by
    rw [visibleEntries]
    rw [if_neg (by simp [cfgUserScoped])]
    rw [if_neg (by simp [cfgUserScoped, hrole])]
  rw [hvis, List.mem_filter] at he
  obtain ⟨hemem, hpol⟩ := he
  rw [entrySelectPolicy] at hpol
  cases hu : c.uid with
  | none =>
    rw [hu] at hpol
    simp at hpol
  | some u =>
    rw [hu] at hpol
    simp only [Bool.and_eq_true] at hpol
    have h2 := hpol.2
    rw [hadmin u hu] at h2
    simp only [Bool.or_false, beq_iff_eq] at h2
    exact ⟨e, hemem, heq, by rw [h2]⟩

theorem C8_user_scoped_isolation_witness :
    ∃ e ∈ twoUserState.entries,
      toVerificationRow (visibleBatches cfgUserScoped noAdmin callerU2 twoUserState.batches) e =
        (listVerification cfgUserScoped noAdmin callerU2 twoUserState).head (by decide) ∧
      some e.user_id = callerU2.uid :=
  C8_user_scoped_tenant_isolation noAdmin callerU2 twoUserState
    (fun _ _ => rfl) (by decide) _ (List.head_mem (by decide))

/-- The UPDATE policy of migration 20251012163256 on ledger_entries:
only the service role passes, whatever the row; with RLS disabled the
policies are not consulted at all, so the table grant alone decides. -/
def updateAllowed (cfg : RlsConfig) (c : Caller) (_e : Entry) : Bool :=
  cfg.updateGranted c.role && (!cfg.rlsEnabled || c.role == .serviceRole)

/-- An UPDATE against ledger_entries setting the chained columns of one
row, permitted exactly by the grants and policies of the configuration:
the permission layer contains no column restriction, so a permitted
update may rewrite body_json and body_hash of a committed entry. -/
def updateEntryFields (cfg : RlsConfig) (c : Caller) (st : LedgerState)
    (eid : Nat) (newBody : Json) (newHash : Nat) : Option LedgerState :=
  if st.entries.any (fun e => (e.id == eid) && updateAllowed cfg c e) then
    some { st with entries := st.entries.map (fun e =>
      if e.id == eid then { e with body_json := newBody, body_hash := newHash } else e) }
  else none

/-- A datastore holding one committed entry of u1. -/
def oneEntryState : LedgerState := runOps [.append chainReqU1]

/-- C9 evaluation: the permission layer permits rewriting the chained
fields of a committed entry. Under the user-scoped configuration at the
repository head the service role may set body_json and body_hash of u1's
entry to new values, because the UPDATE policy of migration 20251012163256
carries no column restriction and the original deny-update policy was
dropped by migration 20250830002024; under the historical backdoor
configuration even an anonymous caller could do the same. The immutability
the claim states is not enforced. -/
theorem C9_chained_fields_mutable :
    ((updateEntryFields cfgBackdoor { role := .anon, uid := none } oneEntryState
        0 (mkBody [106]) 42).map (fun s => s.entries.map (fun e => e.body_hash))) =
      some [42] ∧
    oneEntryState.entries.map (fun e => decide (e.body_hash = 42)) = [false] ∧
    oneEntryState.entries.all
      (fun e => updateAllowed cfgUserScoped { role := .serviceRole, uid := none } e) = true ∧
    oneEntryState.entries.all
      (fun e => !updateAllowed cfgUserScoped { role := .authenticated
                                               uid := some (ascii "u1") } e) = true := by
  refine ⟨by decide, by decide, by decide, by decide⟩

theorem C1_per_agent_chain_witness :
    chainFrom none (agentEntries (runOps wOps).entries (ascii "claude")) = true :=
  C1_per_agent_chain_integrity wOps (ascii "claude")

theorem C2_amended_agent_only_witness :
    ∃ p ∈ (runOps [.append chainReqU1]).entries, p.agent_id = chainReqU2.agent_id ∧
      (newEntry (runOps [.append chainReqU1]) chainReqU2).prev_hash = some p.body_hash ∧
      ∀ q2 ∈ (runOps [.append chainReqU1]).entries, q2.agent_id = chainReqU2.agent_id →
        q2.created_at ≤ p.created_at := by
  have h := (C2_amended_agent_only_scope [.append chainReqU1] chainReqU2).2
  refine h ((runOps [.append chainReqU1]).entries.head (by decide)) ?_ ?_
  · exact List.head_mem (by decide)
  · decide

theorem C10_sanitizer_strips_witness :
    sanitizeBodyJson (mkBody [97, 1, 98]) = some (mkBody [97, 1, 98]) ∧
    sanitizeBodyJson (mkBody [97, 127, 98]) = some (mkBody [97, 98]) :=
  ⟨C10_sanitizer_strips_only_high_controls.1 1 (by decide),
   C10_sanitizer_strips_only_high_controls.2 127 (by decide) (by decide)⟩

end TriChatLedger
